import Mathlib

/-!
Verification development for the ELM ordinance county file downloading logic
(`elm/ords/download.py`).

The pipeline stages are shallowly embedded:

* external collaborators (the search backend, the file loader, the jurisdiction
  validator `CountyValidator.check`, and the content classifier
  `check_for_ordinance_info`) are taken as function parameters, with fallible
  calls returning `Except ε`;
* `asyncio.gather` (fail-fast, no `return_exceptions`) is modelled by `gather`,
  which yields the ordered list of results when every task succeeds, and the
  first (in task order) raised error otherwise;
* Python's stable ascending `sorted` is modelled by `List.insertionSort` with a
  non-strict total comparator (insertion sort with a non-strict comparator is
  stable, so it computes the same list as any stable ascending sort);
* Python tuple comparison of the integer sorting keys (booleans compare as
  0/1) is modelled by lexicographic comparison `listLe` on `List Int`;
* a Python `set` populated by iterating `urls.add(url)` is modelled as an
  insertion-ordered duplicate-free list;
* `itertools.zip_longest` (with `None` fill) is modelled by `zip_longest`,
  peeling one head per row until the longest list is exhausted.

Documents carry exactly the attributes the pipeline reads: the class tag
`isinstance(doc, PDFDocument)`, the text, the `"date"` metadata entry
(`none` when absent, making year, month and day all default to `-1`), and
the `"contains_ord_info"` metadata flag.
-/

/-- A pipeline document: `isPDF` models `isinstance(doc, PDFDocument)`,
`text` the extracted text, `date` the optional `metadata["date"]` triple
(year, month, day), and `contains_ord_info` the
`metadata["contains_ord_info"]` flag set by the content classifier. -/
structure Doc where
  isPDF : Bool
  text : String
  date : Option (Int × Int × Int)
  contains_ord_info : Bool
deriving DecidableEq

/-- A county location (`elm.ords.utilities.location.Location`). -/
structure Location where
  full_name : String
  name : String
  state : String

/-- The fixed, process-wide search query templates. -/
def QUESTION_TEMPLATES : List String :=
  ["0. \"wind energy conversion system zoning ordinances {location}\"",
   "1. \"{location} wind WECS zoning ordinance\"",
   "2. \"Where can I find the legal text for commercial wind energy conversion system zoning ordinances in {location}?\"",
   "3. \"What is the specific legal information regarding zoning ordinances for commercial wind energy conversion systems in {location}?\""]

/-- Python tuple comparison on integer keys: lexicographic `≤` on lists. -/
def listLe : List Int → List Int → Bool
  | [], _ => true
  | _ :: _, [] => false
  | a :: as, b :: bs =>
    if a < b then true
    else if a = b then listLe as bs
    else false

/-- `_ord_doc_sorting_key`: `(year, isinstance(doc, PDFDocument),
-1 * len(doc.text), month, day)` with `(year, month, day)` read from
`metadata.get("date", (-1, -1, -1))`; the boolean compares as `0`/`1`. -/
def _ord_doc_sorting_key (doc : Doc) : List Int :=
  match doc.date.getD (-1, -1, -1) with
  | (year, month, day) =>
    [year, if doc.isPDF then 1 else 0, -1 * (doc.text.length : Int), month, day]

/-- The document ordering induced by `_ord_doc_sorting_key`. -/
def docLe (a b : Doc) : Prop :=
  listLe (_ord_doc_sorting_key a) (_ord_doc_sorting_key b) = true

instance : DecidableRel docLe := fun a b => by
  unfold docLe; infer_instance

/-- `_parse_all_ord_docs`: `None` on an empty list, otherwise the last
element of the stable ascending sort by `_ord_doc_sorting_key`. -/
def _parse_all_ord_docs (all_ord_docs : List Doc) : Option Doc :=
  if all_ord_docs.isEmpty then none
  else (all_ord_docs.insertionSort docLe).getLast?

/-- The jurisdiction-stage reordering key:
`(not isinstance(doc, PDFDocument), len(doc.text))`, booleans as `0`/`1`. -/
def _loc_doc_sorting_key (doc : Doc) : List Int :=
  [if doc.isPDF then 0 else 1, (doc.text.length : Int)]

/-- The document ordering induced by `_loc_doc_sorting_key`. -/
def locLe (a b : Doc) : Prop :=
  listLe (_loc_doc_sorting_key a) (_loc_doc_sorting_key b) = true

instance : DecidableRel locLe := fun a b => by
  unfold locLe; infer_instance

/-- `asyncio.gather` over fallible tasks, fail-fast: all results in task
order, or the first (in task order) error. No partial list is produced. -/
def gather : List (Except ε α) → Except ε (List α)
  | [] => .ok []
  | .error e :: _ => .error e
  | .ok a :: rest =>
    match gather rest with
    | .error e => .error e
    | .ok as => .ok (a :: as)

/-- `str.format(location=...)` on a query template. -/
def formatQuestion (q location : String) : String :=
  q.replace "{location}" location

/-- `_find_urls`: one search task per question template, gathered
fail-fast; the search backend is the external collaborator `search`. -/
def _find_urls (search : String → Except ε (List String)) (location : String) :
    Except ε (List (List String)) :=
  gather (QUESTION_TEMPLATES.map fun q => search (formatQuestion q location))

/-- Length of the longest of the lists (number of rows
`itertools.zip_longest` yields). -/
def maxLen (lists : List (List α)) : Nat :=
  lists.foldr (fun l n => max l.length n) 0

/-- One row per step, peeling the head of every list, for `n` rows. -/
def zipLongestAux : Nat → List (List α) → List (List (Option α))
  | 0, _ => []
  | n + 1, lists => lists.map List.head? :: zipLongestAux n (lists.map List.tail)

/-- `itertools.zip_longest(*lists)` with `None` fill: rows of heads until
every list is exhausted. -/
def zip_longest (lists : List (List α)) : List (List (Option α)) :=
  zipLongestAux (maxLen lists) lists

/-- The `for url in all_urls` loop of `_down_select_urls`: skip falsy
entries (`None` fill values and empty strings), add to the set, and stop
as soon as the set size equals `num_urls` (checked after each add). -/
def _down_select_urls_loop (num_urls : Nat) : List (Option String) → List String → List String
  | [], urls => urls
  | url :: rest, urls =>
    match url with
    | none => _down_select_urls_loop num_urls rest urls
    | some u =>
      if u = "" then _down_select_urls_loop num_urls rest urls
      else
        let urls' := if u ∈ urls then urls else urls ++ [u]
        if urls'.length = num_urls then urls'
        else _down_select_urls_loop num_urls rest urls'

/-- `_down_select_urls`: column-major (`zip_longest`) traversal of the
per-template ranked URL lists, flattened (`chain.from_iterable`), then
deduplicated into a capped set. The input is the list of per-template URL
lists (the source's `results[0]` projection of each backend result). The
Python `set` is modelled in insertion order. -/
def _down_select_urls (search_results : List (List String)) (num_urls : Nat) : List String :=
  _down_select_urls_loop num_urls (zip_longest search_results).flatten []

/-- `_down_select_docs_correct_location`: one `CountyValidator.check` task
per document, gathered fail-fast; keep the documents whose check returned
true, then stable-sort them ascending by `_loc_doc_sorting_key`. -/
def _down_select_docs_correct_location (check : Doc → String → String → Except ε Bool)
    (docs : List Doc) (county state : String) : Except ε (List Doc) :=
  match gather (docs.map fun doc => check doc county state) with
  | .error e => .error e
  | .ok output =>
    let correct_loc_docs := ((docs.zip output).filter fun p => p.2).map fun p => p.1
    .ok (correct_loc_docs.insertionSort locLe)

/-- `_check_docs_for_ords`: sequentially classify every document with
`check_for_ordinance_info` (the external collaborator `classify`), keeping
the annotated documents whose `contains_ord_info` flag is true, in order.
The first component records the classifier invocations (the documents
passed to `classify`, in call order); the second is `ord_docs`. -/
def _check_docs_for_ords (classify : Doc → Doc) : List Doc → List Doc × List Doc
  | [] => ([], [])
  | doc :: rest =>
    let d := classify doc
    let (calls, ord_docs) := _check_docs_for_ords classify rest
    (doc :: calls, if d.contains_ord_info then d :: ord_docs else ord_docs)

/-- `download_county_ordinance`: the pipeline orchestrator for one county.
External collaborators are parameters: `search` (the Google link search),
`fetch` (`AsyncFileLoader.fetch_all`, absorbing per-URL failures),
`check` (`CountyValidator.check`) and `classify`
(`check_for_ordinance_info`). -/
def download_county_ordinance (search : String → Except ε (List String))
    (fetch : List String → List Doc) (check : Doc → String → String → Except ε Bool)
    (classify : Doc → Doc) (location : Location) (num_urls : Nat) :
    Except ε (Option Doc) :=
  match _find_urls search location.full_name with
  | .error e => .error e
  | .ok search_results =>
    let urls := _down_select_urls search_results num_urls
    let docs := fetch urls
    match _down_select_docs_correct_location check docs location.name location.state with
    | .error e => .error e
    | .ok docs' =>
      let ord_docs := (_check_docs_for_ords classify docs').2
      .ok (_parse_all_ord_docs ord_docs)

/-! ### Properties of the lexicographic key comparison -/

theorem listLe_refl (l : List Int) : listLe l l = true := by
  induction l with
  | nil => rfl
  | cons a as ih => simp [listLe, ih]

theorem listLe_total (a b : List Int) : listLe a b = true ∨ listLe b a = true := by
  induction a generalizing b with
  | nil => exact Or.inl rfl
  | cons x xs ih =>
    cases b with
    | nil => exact Or.inr rfl
    | cons y ys =>
      rcases lt_trichotomy x y with h | h | h
      · exact Or.inl (by simp [listLe, h])
      · subst h
        rcases ih ys with h2 | h2
        · exact Or.inl (by simp [listLe, h2])
        · exact Or.inr (by simp [listLe, h2])
      · exact Or.inr (by simp [listLe, h])

theorem listLe_trans {a b c : List Int} (h1 : listLe a b = true) (h2 : listLe b c = true) :
    listLe a c = true := by
  induction a generalizing b c with
  | nil => rfl
  | cons x xs ih =>
    cases b with
    | nil => simp [listLe] at h1
    | cons y ys =>
      cases c with
      | nil => simp [listLe] at h2
      | cons z zs =>
        rw [listLe] at h1 h2 ⊢
        by_cases hxy : x < y
        · by_cases hyz : y < z
          · simp [lt_trans hxy hyz]
          · by_cases hyz' : y = z
            · subst hyz'; simp [hxy]
            · simp [hyz, hyz'] at h2
        · by_cases hxy' : x = y
          · subst hxy'
            rw [if_neg hxy, if_pos rfl] at h1
            by_cases hyz : x < z
            · simp [hyz]
            · by_cases hyz' : x = z
              · subst hyz'
                rw [if_neg hyz, if_pos rfl] at h2 ⊢
                exact ih h1 h2
              · simp [hyz, hyz'] at h2
          · simp [hxy, hxy'] at h1

theorem listLe_antisymm {a b : List Int} (h1 : listLe a b = true) (h2 : listLe b a = true) :
    a = b := by
  induction a generalizing b with
  | nil =>
    cases b with
    | nil => rfl
    | cons y ys => simp [listLe] at h2
  | cons x xs ih =>
    cases b with
    | nil => simp [listLe] at h1
    | cons y ys =>
      rw [listLe] at h1 h2
      by_cases hxy : x < y
      · rw [if_neg (lt_asymm hxy), if_neg (ne_of_gt hxy)] at h2
        exact absurd h2 (by simp)
      · by_cases hxy' : x = y
        · subst hxy'
          rw [if_neg hxy, if_pos rfl] at h1 h2
          rw [ih h1 h2]
        · simp [hxy, hxy'] at h1

theorem docLe_total (a b : Doc) : docLe a b ∨ docLe b a :=
  listLe_total _ _

theorem docLe_trans {a b c : Doc} (h1 : docLe a b) (h2 : docLe b c) : docLe a c :=
  listLe_trans h1 h2

theorem locLe_total (a b : Doc) : locLe a b ∨ locLe b a :=
  listLe_total _ _

theorem locLe_trans {a b c : Doc} (h1 : locLe a b) (h2 : locLe b c) : locLe a c :=
  listLe_trans h1 h2

instance : IsTotal Doc locLe := ⟨locLe_total⟩

instance : IsTrans Doc locLe := ⟨fun _ _ _ => locLe_trans⟩

/-! ### The last element of a stable ascending insertion sort -/

theorem getLast?_cons_of_ne_nil {c : α} {l : List α} (h : l ≠ []) :
    (c :: l).getLast? = l.getLast? := by
  cases l with
  | nil => exact absurd rfl h
  | cons d t => exact List.getLast?_cons_cons

theorem orderedInsert_ne_nil {r : α → α → Prop} [DecidableRel r] (a : α) (l : List α) :
    List.orderedInsert r a l ≠ [] := by
  intro h
  have := List.orderedInsert_length (r := r) l a
  rw [h] at this
  simp at this

theorem getLast?_orderedInsert_of_forall {r : α → α → Prop} [DecidableRel r] (a : α)
    (l : List α) (h : ∀ b ∈ l, ¬ r a b) :
    (List.orderedInsert r a l).getLast? = some a := by
  induction l with
  | nil => rfl
  | cons b t ih =>
    rw [List.orderedInsert, if_neg (h b (by simp))]
    rw [getLast?_cons_of_ne_nil (orderedInsert_ne_nil a t)]
    exact ih fun c hc => h c (by simp [hc])

theorem getLast?_orderedInsert_of_exists {r : α → α → Prop} [DecidableRel r] {a b : α}
    {l : List α} (hb : b ∈ l) (hab : r a b) :
    (List.orderedInsert r a l).getLast? = l.getLast? := by
  induction l with
  | nil => cases hb
  | cons c t ih =>
    by_cases hac : r a c
    · rw [List.orderedInsert, if_pos hac]
      exact List.getLast?_cons_cons
    · rw [List.orderedInsert, if_neg hac]
      have hbt : b ∈ t := by
        rcases List.mem_cons.1 hb with h | h
        · subst h; exact absurd hab hac
        · exact h
      rw [getLast?_cons_of_ne_nil (orderedInsert_ne_nil a t), ih hbt,
        getLast?_cons_of_ne_nil (List.ne_nil_of_mem hbt)]

/-- The last element of a stable ascending insertion sort of a non-empty
list: it is an element of the list, its key is maximal, and every element
strictly after it in the input is strictly below it. -/
theorem getLast?_insertionSort_argmax {α : Type} {r : α → α → Prop} [DecidableRel r]
    (total : ∀ a b, r a b ∨ r b a) (htrans : ∀ a b c, r a b → r b c → r a c)
    (l : List α) (hne : l ≠ []) :
    ∃ (i : Nat) (d : α), l[i]? = some d ∧ (List.insertionSort r l).getLast? = some d ∧
      (∀ (j : Nat) (d' : α), l[j]? = some d' → r d' d) ∧
      ∀ (j : Nat) (d' : α), i < j → l[j]? = some d' → ¬ r d d' := by
  induction l with
  | nil => exact absurd rfl hne
  | cons a t ih =>
    by_cases ht : t = []
    · subst ht
      refine ⟨0, a, List.getElem?_cons_zero, rfl, ?_, ?_⟩
      · intro j d' hj
        cases j with
        | zero =>
          rw [List.getElem?_cons_zero] at hj
          cases hj
          exact (total a a).elim id id
        | succ j => simp at hj
      · intro j d' _ hj
        cases j with
        | zero => simp at hj; omega
        | succ j => simp at hj
    · obtain ⟨i, d, hget, hlast, hmax, hstrict⟩ := ih ht
      by_cases hins : ∀ b ∈ List.insertionSort r t, ¬ r a b
      · refine ⟨0, a, List.getElem?_cons_zero, ?_, ?_, ?_⟩
        · exact getLast?_orderedInsert_of_forall a _ hins
        · intro j d' hj
          cases j with
          | zero =>
            rw [List.getElem?_cons_zero] at hj
            cases hj
            exact (total a a).elim id id
          | succ j =>
            rw [List.getElem?_cons_succ] at hj
            have hd' : d' ∈ List.insertionSort r t :=
              (List.mem_insertionSort r).2 (List.getElem?_mem hj)
            exact (total d' a).resolve_right (hins d' hd')
        · intro j d' h0j hj
          cases j with
          | zero => omega
          | succ j =>
            rw [List.getElem?_cons_succ] at hj
            exact hins d' ((List.mem_insertionSort r).2 (List.getElem?_mem hj))
      · push_neg at hins
        obtain ⟨b, hb, hab⟩ := hins
        refine ⟨i + 1, d, by rw [List.getElem?_cons_succ]; exact hget, ?_, ?_, ?_⟩
        · show (List.orderedInsert r a (List.insertionSort r t)).getLast? = some d
          rw [getLast?_orderedInsert_of_exists hb hab]
          exact hlast
        · intro j d' hj
          cases j with
          | zero =>
            rw [List.getElem?_cons_zero] at hj
            cases hj
            have hbt : b ∈ t := (List.mem_insertionSort r).1 hb
            obtain ⟨jb, hjb⟩ := List.getElem?_of_mem hbt
            exact htrans a b d hab (hmax jb b hjb)
          | succ j =>
            rw [List.getElem?_cons_succ] at hj
            exact hmax j d' hj
        · intro j d' hij hj
          cases j with
          | zero => omega
          | succ j =>
            rw [List.getElem?_cons_succ] at hj
            exact hstrict j d' (by omega) hj

/-- Strictly below in the `_ord_doc_sorting_key` ordering. -/
def docLt (a b : Doc) : Prop := docLe a b ∧ ¬ docLe b a

theorem listLe_cons_iff {a b : Int} {as bs : List Int} :
    listLe (a :: as) (b :: bs) = true ↔ a < b ∨ (a = b ∧ listLe as bs = true) := by
  rw [listLe]
  split_ifs with h1 h2
  · simp [h1]
  · simp [h1, h2]
  · simp [h1, h2]

theorem listLe_five {a1 a2 a3 a4 a5 b1 b2 b3 b4 b5 : Int} :
    listLe [a1, a2, a3, a4, a5] [b1, b2, b3, b4, b5] = true ↔
      a1 < b1 ∨ (a1 = b1 ∧ (a2 < b2 ∨ (a2 = b2 ∧ (a3 < b3 ∨ (a3 = b3 ∧
        (a4 < b4 ∨ (a4 = b4 ∧ (a5 < b5 ∨ a5 = b5)))))))) := by
  simp only [listLe_cons_iff]
  simp [listLe]

theorem ord_key_eq {d : Doc} {y m dd : Int} (h : d.date.getD (-1, -1, -1) = (y, m, dd)) :
    _ord_doc_sorting_key d = [y, if d.isPDF then 1 else 0, -1 * (d.text.length : Int), m, dd] := by
  unfold _ord_doc_sorting_key
  rw [h]

/-- C8: `BestMatchSelector` (`_parse_all_ord_docs`) applied to an empty
document list returns the "none found" value `none`. -/
theorem parse_all_ord_docs_empty : _parse_all_ord_docs [] = none := rfl

/-- C1: on every non-empty list of content-matching documents,
`_parse_all_ord_docs` returns an element of the list that is maximal under
the composite key `(year, isPDF, -text length, month, day)` — the list is
sorted ascending by this key and the last element is returned — and the
key orders exactly as claimed: later year wins; at equal year PDF beats
non-PDF; then SHORTER text wins; then later month, then later day, with
year, month and day read from the date metadata and defaulting to `-1`
when absent. -/
theorem parse_all_ord_docs_best_match :
    (∀ docs : List Doc, docs ≠ [] →
      ∃ d, _parse_all_ord_docs docs = some d ∧ d ∈ docs ∧ ∀ d' ∈ docs, docLe d' d)
    ∧ (∀ d : Doc, d.date = none → d.date.getD (-1, -1, -1) = (-1, -1, -1))
    ∧ ∀ (a b : Doc) (ya ma da yb mb db : Int),
        a.date.getD (-1, -1, -1) = (ya, ma, da) →
        b.date.getD (-1, -1, -1) = (yb, mb, db) →
        (ya < yb → docLt a b)
        ∧ (ya = yb → a.isPDF = false → b.isPDF = true → docLt a b)
        ∧ (ya = yb → a.isPDF = b.isPDF → (b.text.length : Int) < (a.text.length : Int) →
            docLt a b)
        ∧ (ya = yb → a.isPDF = b.isPDF → (a.text.length : Int) = (b.text.length : Int) →
            ma < mb → docLt a b)
        ∧ (ya = yb → a.isPDF = b.isPDF → (a.text.length : Int) = (b.text.length : Int) →
            ma = mb → da < db → docLt a b) := by
  refine ⟨?_, ?_, ?_⟩
  · intro docs h
    obtain ⟨i, d, hget, hlast, hmax, _⟩ :=
      getLast?_insertionSort_argmax (r := docLe) docLe_total (fun _ _ _ => docLe_trans) docs h
    refine ⟨d, ?_, List.getElem?_mem hget, ?_⟩
    · unfold _parse_all_ord_docs
      rw [if_neg (by simpa [List.isEmpty_iff] using h)]
      exact hlast
    · intro d' hd'
      obtain ⟨j, hj⟩ := List.getElem?_of_mem hd'
      exact hmax j d' hj
  · intro d h
    rw [h]
    rfl
  · intro a b ya ma da yb mb db ha hb
    have ka := ord_key_eq ha
    have kb := ord_key_eq hb
    refine ⟨?_, ?_, ?_, ?_, ?_⟩
    · intro h1
      constructor
      · show listLe _ _ = true
        rw [ka, kb, listLe_five]
        exact Or.inl h1
      · show ¬ listLe _ _ = true
        rw [kb, ka, listLe_five]
        omega
    · intro h1 h2 h3
      constructor
      · show listLe _ _ = true
        rw [ka, kb, listLe_five]
        simp [h2, h3]
        omega
      · show ¬ listLe _ _ = true
        rw [kb, ka, listLe_five]
        simp [h2, h3]
        omega
    · intro h1 h2 h3
      constructor
      · show listLe _ _ = true
        rw [ka, kb, listLe_five, h2]
        omega
      · show ¬ listLe _ _ = true
        rw [kb, ka, listLe_five, h2]
        omega
    · intro h1 h2 h3 h4
      constructor
      · show listLe _ _ = true
        rw [ka, kb, listLe_five, h2]
        omega
      · show ¬ listLe _ _ = true
        rw [kb, ka, listLe_five, h2]
        omega
    · intro h1 h2 h3 h4 h5
      constructor
      · show listLe _ _ = true
        rw [ka, kb, listLe_five, h2]
        omega
      · show ¬ listLe _ _ = true
        rw [kb, ka, listLe_five, h2]
        omega

/-- C10: on every non-empty input, `_parse_all_ord_docs` returns an
element of the list; when several documents share the full sorting key of
the returned one, the returned document is the occurrence with the largest
input index (the ascending sort is stable and the last element is taken). -/
theorem parse_all_ord_docs_last_of_ties (docs : List Doc) (h : docs ≠ []) :
    ∃ (i : Nat) (d : Doc), docs[i]? = some d ∧ _parse_all_ord_docs docs = some d ∧ d ∈ docs ∧
      ∀ (j : Nat) (d' : Doc), docs[j]? = some d' →
        _ord_doc_sorting_key d' = _ord_doc_sorting_key d → j ≤ i := by
  obtain ⟨i, d, hget, hlast, hmax, hstrict⟩ :=
    getLast?_insertionSort_argmax (r := docLe) docLe_total (fun _ _ _ => docLe_trans) docs h
  refine ⟨i, d, hget, ?_, List.getElem?_mem hget, ?_⟩
  · unfold _parse_all_ord_docs
    rw [if_neg (by simpa [List.isEmpty_iff] using h)]
    exact hlast
  · intro j d' hj hkey
    by_contra hij
    push_neg at hij
    refine hstrict j d' hij hj ?_
    show listLe _ _ = true
    rw [hkey]
    exact listLe_refl _

/-! ### The jurisdiction-stage reordering (C2) -/

theorem listLe_two {a1 a2 b1 b2 : Int} :
    listLe [a1, a2] [b1, b2] = true ↔ a1 < b1 ∨ (a1 = b1 ∧ a2 ≤ b2) := by
  simp [listLe_cons_iff, listLe]
  omega

theorem locLe_imp {a b : Doc} (h : locLe a b) :
    (a.isPDF = false → b.isPDF = false) ∧
      (a.isPDF = b.isPDF → a.text.length ≤ b.text.length) := by
  unfold locLe _loc_doc_sorting_key at h
  rw [listLe_two] at h
  cases hpa : a.isPDF <;> cases hpb : b.isPDF <;>
      simp only [hpa, hpb] at h <;> simp only [hpa, hpb] <;> simp at h ⊢ <;> omega

/-- The non-PDF document of the C2 example (text length 1). -/
def docNonPdfShort : Doc := ⟨false, "x", none, false⟩

/-- The PDF document of the C2 example (text length 2). -/
def docPdfLong : Doc := ⟨true, "yy", none, false⟩

/-- C2 is false as stated: with every jurisdiction check returning true,
the two surviving documents are reordered with the PDF document first,
not with the non-PDF document first as claimed. -/
theorem down_select_docs_nonpdf_first_cex :
    _down_select_docs_correct_location (ε := Unit) (fun _ _ _ => .ok true)
        [docNonPdfShort, docPdfLong] "county" "state"
      = .ok [docPdfLong, docNonPdfShort]
    ∧ docPdfLong.isPDF = true ∧ docNonPdfShort.isPDF = false
    ∧ docPdfLong ≠ docNonPdfShort := by
  exact ⟨rfl, rfl, rfl, by decide⟩

/-- C2 (amended): the documents surviving the jurisdiction check are
reordered ascending by the pair (document is NOT of the PDF-like format,
text length), so that all PDF documents come before all non-PDF documents,
and within each of those two groups documents are ordered by ascending
text length. -/
theorem down_select_docs_orders_pdf_first {ε : Type}
    (check : Doc → String → String → Except ε Bool) (docs : List Doc)
    (county state : String) (result : List Doc)
    (h : _down_select_docs_correct_location check docs county state = .ok result) :
    (∃ output, gather (docs.map fun doc => check doc county state) = .ok output ∧
        result.Perm (((docs.zip output).filter fun p => p.2).map fun p => p.1))
    ∧ result.Pairwise fun a b =>
        (a.isPDF = false → b.isPDF = false) ∧
          (a.isPDF = b.isPDF → a.text.length ≤ b.text.length) := by
  unfold _down_select_docs_correct_location at h
  cases hg : gather (docs.map fun doc => check doc county state) with
  | error e => rw [hg] at h; cases h
  | ok output =>
    rw [hg] at h
    have hr := Except.ok.inj h
    subst hr
    refine ⟨⟨output, rfl, (List.perm_insertionSort _ _)⟩, ?_⟩
    have hs := List.sorted_insertionSort locLe
      (((docs.zip output).filter fun p => p.2).map fun p => p.1)
    exact List.Pairwise.imp (fun hab => locLe_imp hab) hs

/-- Witness for the amended C2 at a concrete input. -/
theorem down_select_docs_orders_pdf_first_witness :
    ([docPdfLong, docNonPdfShort]).Pairwise (fun a b =>
      (a.isPDF = false → b.isPDF = false) ∧
        (a.isPDF = b.isPDF → a.text.length ≤ b.text.length)) :=
  (down_select_docs_orders_pdf_first (ε := Unit) (fun _ _ _ => .ok true)
    [docNonPdfShort, docPdfLong] "county" "state" [docPdfLong, docNonPdfShort] rfl).2

/-! ### Column-major traversal and the URL down-select loop (C3, C4, C9) -/

theorem zipLongestAux_eq_cols {α : Type} (n : Nat) (lists : List (List α)) :
    zipLongestAux n lists = (List.range n).map fun i => lists.map fun l => l[i]? := by
  induction n generalizing lists with
  | zero => rfl
  | succ n ih =>
    rw [zipLongestAux, ih, List.range_succ_eq_map, List.map_cons, List.map_map]
    congr 1
    · apply List.map_congr_left
      intro l _
      exact List.head?_eq_getElem? l
    · apply List.map_congr_left
      intro i _
      show (lists.map List.tail).map _ = _
      rw [List.map_map]
      apply List.map_congr_left
      intro l _
      show l.tail[i]? = l[i + 1]?
      rw [List.getElem?_tail]

theorem zip_longest_cols {α : Type} (lists : List (List α)) :
    zip_longest lists = (List.range (maxLen lists)).map fun i => lists.map fun l => l[i]? :=
  zipLongestAux_eq_cols _ _

theorem length_le_maxLen {α : Type} {l : List α} {lists : List (List α)} (h : l ∈ lists) :
    l.length ≤ maxLen lists := by
  induction lists with
  | nil => cases h
  | cons x xs ih =>
    rcases List.mem_cons.1 h with h | h
    · subst h
      exact le_max_left _ _
    · exact le_trans (ih h) (le_max_right _ _)

theorem mem_flatten_zip_longest {α : Type} {lists : List (List α)} {u : α} :
    some u ∈ (zip_longest lists).flatten ↔ ∃ l ∈ lists, u ∈ l := by
  rw [zip_longest_cols]
  simp only [List.mem_flatten, List.mem_map, List.mem_range]
  constructor
  · rintro ⟨row, ⟨i, _, rfl⟩, hrow⟩
    obtain ⟨l, hl, hli⟩ := List.mem_map.1 hrow
    exact ⟨l, hl, List.getElem?_mem hli⟩
  · rintro ⟨l, hl, hu⟩
    obtain ⟨i, hi⟩ := List.mem_iff_getElem?.1 hu
    have hilen : i < l.length := (List.getElem?_eq_some.1 hi).1
    refine ⟨lists.map fun l => l[i]?, ⟨i, lt_of_lt_of_le hilen (length_le_maxLen hl), rfl⟩, ?_⟩
    exact List.mem_map.2 ⟨l, hl, hi⟩

theorem down_select_urls_loop_nil (n : Nat) (acc : List String) :
    _down_select_urls_loop n [] acc = acc := rfl

theorem down_select_urls_loop_none (n : Nat) (rest : List (Option String)) (acc : List String) :
    _down_select_urls_loop n (none :: rest) acc = _down_select_urls_loop n rest acc := rfl

theorem down_select_urls_loop_some (n : Nat) (v : String) (rest : List (Option String))
    (acc : List String) :
    _down_select_urls_loop n (some v :: rest) acc =
      if v = "" then _down_select_urls_loop n rest acc
      else if (if v ∈ acc then acc else acc ++ [v]).length = n
        then (if v ∈ acc then acc else acc ++ [v])
        else _down_select_urls_loop n rest (if v ∈ acc then acc else acc ++ [v]) := rfl

theorem mem_insert_url {u v : String} {acc : List String}
    (h : u ∈ (if v ∈ acc then acc else acc ++ [v])) : u ∈ acc ∨ u = v := by
  by_cases hv : v ∈ acc
  · rw [if_pos hv] at h
    exact Or.inl h
  · rw [if_neg hv] at h
    rcases List.mem_append.1 h with h | h
    · exact Or.inl h
    · simp at h
      exact Or.inr h

theorem mem_insert_url_self {v : String} {acc : List String} :
    v ∈ (if v ∈ acc then acc else acc ++ [v]) := by
  by_cases hv : v ∈ acc
  · rw [if_pos hv]; exact hv
  · rw [if_neg hv]; simp

theorem mem_insert_url_of_mem {u v : String} {acc : List String} (h : u ∈ acc) :
    u ∈ (if v ∈ acc then acc else acc ++ [v]) := by
  by_cases hv : v ∈ acc
  · rw [if_pos hv]; exact h
  · rw [if_neg hv]; exact List.mem_append_left _ h

theorem insert_url_ne_nil (v : String) (acc : List String) :
    (if v ∈ acc then acc else acc ++ [v]) ≠ [] := by
  by_cases hv : v ∈ acc
  · rw [if_pos hv]; exact List.ne_nil_of_mem hv
  · rw [if_neg hv]; simp

theorem down_select_urls_loop_mem_sub (n : Nat) :
    ∀ (rest : List (Option String)) (acc : List String) (u : String),
      u ∈ _down_select_urls_loop n rest acc → u ∈ acc ∨ (some u ∈ rest ∧ u ≠ "") := by
  intro rest
  induction rest with
  | nil =>
    intro acc u hu
    rw [down_select_urls_loop_nil] at hu
    exact Or.inl hu
  | cons url rest ih =>
    intro acc u hu
    cases url with
    | none =>
      rw [down_select_urls_loop_none] at hu
      rcases ih acc u hu with h | ⟨h1, h2⟩
      · exact Or.inl h
      · exact Or.inr ⟨List.mem_cons_of_mem _ h1, h2⟩
    | some v =>
      rw [down_select_urls_loop_some] at hu
      by_cases hv : v = ""
      · rw [if_pos hv] at hu
        rcases ih acc u hu with h | ⟨h1, h2⟩
        · exact Or.inl h
        · exact Or.inr ⟨List.mem_cons_of_mem _ h1, h2⟩
      · rw [if_neg hv] at hu
        by_cases hlen : (if v ∈ acc then acc else acc ++ [v]).length = n
        · rw [if_pos hlen] at hu
          rcases mem_insert_url hu with h | h
          · exact Or.inl h
          · subst h
            exact Or.inr ⟨List.mem_cons_self _ _, hv⟩
        · rw [if_neg hlen] at hu
          rcases ih _ u hu with h | ⟨h1, h2⟩
          · rcases mem_insert_url h with h | h
            · exact Or.inl h
            · subst h
              exact Or.inr ⟨List.mem_cons_self _ _, hv⟩
          · exact Or.inr ⟨List.mem_cons_of_mem _ h1, h2⟩

theorem down_select_urls_loop_nodup (n : Nat) :
    ∀ (rest : List (Option String)) (acc : List String), acc.Nodup →
      (_down_select_urls_loop n rest acc).Nodup := by
  intro rest
  induction rest with
  | nil =>
    intro acc hacc
    rw [down_select_urls_loop_nil]
    exact hacc
  | cons url rest ih =>
    intro acc hacc
    cases url with
    | none =>
      rw [down_select_urls_loop_none]
      exact ih acc hacc
    | some v =>
      rw [down_select_urls_loop_some]
      by_cases hv : v = ""
      · rw [if_pos hv]
        exact ih acc hacc
      · rw [if_neg hv]
        have hnodup : (if v ∈ acc then acc else acc ++ [v]).Nodup := by
          by_cases hmem : v ∈ acc
          · rw [if_pos hmem]; exact hacc
          · rw [if_neg hmem]
            simp [List.nodup_append, hacc, hmem]
        by_cases hlen : (if v ∈ acc then acc else acc ++ [v]).length = n
        · rw [if_pos hlen]
          exact hnodup
        · rw [if_neg hlen]
          exact ih _ hnodup

theorem down_select_urls_loop_len_le (n : Nat) :
    ∀ (rest : List (Option String)) (acc : List String), acc.length < n →
      (_down_select_urls_loop n rest acc).length ≤ n := by
  intro rest
  induction rest with
  | nil =>
    intro acc hacc
    rw [down_select_urls_loop_nil]
    exact le_of_lt hacc
  | cons url rest ih =>
    intro acc hacc
    cases url with
    | none =>
      rw [down_select_urls_loop_none]
      exact ih acc hacc
    | some v =>
      rw [down_select_urls_loop_some]
      by_cases hv : v = ""
      · rw [if_pos hv]
        exact ih acc hacc
      · rw [if_neg hv]
        have hle : (if v ∈ acc then acc else acc ++ [v]).length ≤ acc.length + 1 := by
          by_cases hmem : v ∈ acc
          · rw [if_pos hmem]; omega
          · rw [if_neg hmem]; simp
        by_cases hlen : (if v ∈ acc then acc else acc ++ [v]).length = n
        · rw [if_pos hlen]
          omega
        · rw [if_neg hlen]
          exact ih _ (by omega)

theorem down_select_urls_loop_mem_super_zero :
    ∀ (rest : List (Option String)) (acc : List String) (u : String),
      u ∈ acc ∨ (some u ∈ rest ∧ u ≠ "") → u ∈ _down_select_urls_loop 0 rest acc := by
  intro rest
  induction rest with
  | nil =>
    rintro acc u (h | ⟨h, _⟩)
    · rw [down_select_urls_loop_nil]; exact h
    · cases h
  | cons url rest ih =>
    rintro acc u (h | ⟨h1, h2⟩)
    · cases url with
      | none =>
        rw [down_select_urls_loop_none]
        exact ih acc u (Or.inl h)
      | some v =>
        rw [down_select_urls_loop_some]
        by_cases hv : v = ""
        · rw [if_pos hv]
          exact ih acc u (Or.inl h)
        · rw [if_neg hv]
          rw [if_neg (by simpa [List.length_eq_zero] using insert_url_ne_nil v acc)]
          exact ih _ u (Or.inl (mem_insert_url_of_mem h))
    · rcases List.mem_cons.1 h1 with h | h
      · cases url with
        | none => cases h
        | some v =>
          have huv : u = v := Option.some.inj h
          subst huv
          rw [down_select_urls_loop_some, if_neg h2,
            if_neg (by simpa [List.length_eq_zero] using insert_url_ne_nil u acc)]
          exact ih _ u (Or.inl mem_insert_url_self)
      · cases url with
        | none =>
          rw [down_select_urls_loop_none]
          exact ih acc u (Or.inr ⟨h, h2⟩)
        | some v =>
          rw [down_select_urls_loop_some]
          by_cases hv : v = ""
          · rw [if_pos hv]
            exact ih acc u (Or.inr ⟨h, h2⟩)
          · rw [if_neg hv]
            rw [if_neg (by simpa [List.length_eq_zero] using insert_url_ne_nil v acc)]
            exact ih _ u (Or.inr ⟨h, h2⟩)

/-- C3: `_down_select_urls` traverses the per-template ranked URL lists
column-major — row `i` of the `zip_longest` traversal holds the rank-`i`
URL of every template, exhausted templates contributing the `none` fill
that the loop skips — and on the per-template lists `[[a,b],[c,d],[e,f]]`
with cap 4 the flattened traversal sequence is `a,c,e,b,d,f` and the
returned set is `{a,c,e,b}`. -/
theorem down_select_urls_round_robin :
    (∀ (α : Type) (lists : List (List α)),
        zip_longest lists = (List.range (maxLen lists)).map fun i => lists.map fun l => l[i]?)
    ∧ (zip_longest [["a", "b"], ["c", "d"], ["e", "f"]]).flatten
        = [some "a", some "c", some "e", some "b", some "d", some "f"]
    ∧ _down_select_urls [["a", "b"], ["c", "d"], ["e", "f"]] 4 = ["a", "c", "e", "b"] :=
  ⟨fun _ lists => zip_longest_cols lists, rfl, rfl⟩

/-- C4 is false as stated: with the cap `num_urls = 0`, the output of
`_down_select_urls` is larger than the cap. -/
theorem down_select_urls_cap_zero_cex :
    ¬ (_down_select_urls [["a"]] 0).length ≤ 0 := by decide

/-- C4 (amended): for every per-template URL lists and every cap
`num_urls ≥ 1`, the set returned by `_down_select_urls` has size at most
`num_urls`, holds no duplicates (a URL appearing in several template lists
contributes one element), and each of its URLs is non-empty and occurs in
at least one input list. -/
theorem down_select_urls_capped (search_results : List (List String)) (num_urls : Nat)
    (h : 1 ≤ num_urls) :
    (_down_select_urls search_results num_urls).length ≤ num_urls
    ∧ (_down_select_urls search_results num_urls).Nodup
    ∧ ∀ u ∈ _down_select_urls search_results num_urls,
        u ≠ "" ∧ ∃ l ∈ search_results, u ∈ l := by
  refine ⟨down_select_urls_loop_len_le _ _ _ (by simpa using h),
    down_select_urls_loop_nodup _ _ _ List.nodup_nil, ?_⟩
  intro u hu
  rcases down_select_urls_loop_mem_sub _ _ _ u hu with h | ⟨h1, h2⟩
  · cases h
  · exact ⟨h2, mem_flatten_zip_longest.1 h1⟩

/-- Witness for the amended C4 at a concrete input. -/
theorem down_select_urls_capped_witness :
    (_down_select_urls [["a", "a", "b", ""], ["c"]] 2).length ≤ 2 ∧
      (_down_select_urls [["a", "a", "b", ""], ["c"]] 2).Nodup ∧
      ∀ u ∈ _down_select_urls [["a", "a", "b", ""], ["c"]] 2,
        u ≠ "" ∧ ∃ l ∈ [["a", "a", "b", ""], ["c"]], u ∈ l :=
  down_select_urls_capped [["a", "a", "b", ""], ["c"]] 2 (by decide)

/-- C9: with `num_urls = 0` the cap is never enforced (the loop compares
the set size with the cap only after an insertion, and the size is then at
least 1), so `_down_select_urls` returns every distinct non-empty URL of
the input lists rather than an empty set. -/
theorem down_select_urls_cap_zero_returns_all (search_results : List (List String)) :
    (_down_select_urls search_results 0).Nodup
    ∧ ∀ u, u ∈ _down_select_urls search_results 0 ↔
        u ≠ "" ∧ ∃ l ∈ search_results, u ∈ l := by
  refine ⟨down_select_urls_loop_nodup _ _ _ List.nodup_nil, ?_⟩
  intro u
  constructor
  · intro hu
    rcases down_select_urls_loop_mem_sub _ _ _ u hu with h | ⟨h1, h2⟩
    · cases h
    · exact ⟨h2, mem_flatten_zip_longest.1 h1⟩
  · rintro ⟨h1, h2⟩
    exact down_select_urls_loop_mem_super_zero _ [] u
      (Or.inr ⟨mem_flatten_zip_longest.2 h2, h1⟩)

/-! ### The content-classification stage (C6) -/

/-- C6: `_check_docs_for_ords` invokes the external content classifier
exactly once per input document, in input order with no early termination
(the invocation trace equals the input list), and returns exactly the
classified documents whose `contains_ord_info` flag is true, preserving
their processing order. -/
theorem check_docs_for_ords_spec (classify : Doc → Doc) (docs : List Doc) :
    (_check_docs_for_ords classify docs).1 = docs
    ∧ (_check_docs_for_ords classify docs).2
        = (docs.map classify).filter fun d => d.contains_ord_info := by
  induction docs with
  | nil => exact ⟨rfl, rfl⟩
  | cons doc rest ih =>
    refine ⟨?_, ?_⟩
    · show doc :: (_check_docs_for_ords classify rest).1 = doc :: rest
      rw [ih.1]
    · show (if (classify doc).contains_ord_info
            then classify doc :: (_check_docs_for_ords classify rest).2
            else (_check_docs_for_ords classify rest).2)
          = (List.map classify (doc :: rest)).filter fun d => d.contains_ord_info
      rw [List.map_cons, List.filter_cons, ih.2]

/-! ### Fail-fast error propagation and empty short-circuit (C5, C7) -/

theorem gather_error_of_mem {ε α : Type} {l : List (Except ε α)}
    (h : ∃ e', (Except.error e' : Except ε α) ∈ l) :
    ∃ e, gather l = .error e ∧ (Except.error e : Except ε α) ∈ l := by
  induction l with
  | nil =>
    obtain ⟨e', he⟩ := h
    cases he
  | cons x rest ih =>
    cases x with
    | error e => exact ⟨e, rfl, List.mem_cons_self _ _⟩
    | ok a =>
      obtain ⟨e', he⟩ := h
      rcases List.mem_cons.1 he with h1 | h1
      · exact Except.noConfusion h1
      · obtain ⟨e, hg, hmem⟩ := ih ⟨e', h1⟩
        refine ⟨e, ?_, List.mem_cons_of_mem _ hmem⟩
        show (match gather rest with
          | .error e => (.error e : Except ε (List α))
          | .ok as => .ok (a :: as)) = .error e
        rw [hg]

/-- C5: if any single search request of the query fan-out fails, or any
single jurisdiction-check classifier call fails, the whole pipeline run
fails with an error of that stage (the first failing task's error) and
produces no partial result: `download_county_ordinance` returns `.error`,
so neither a document nor the "none found" value is produced. -/
theorem pipeline_fail_fast {ε : Type} (search : String → Except ε (List String))
    (fetch : List String → List Doc) (check : Doc → String → String → Except ε Bool)
    (classify : Doc → Doc) (location : Location) (num_urls : Nat) :
    ((∃ q ∈ QUESTION_TEMPLATES, ∃ e, search (formatQuestion q location.full_name) = .error e) →
      ∃ e, (∃ q ∈ QUESTION_TEMPLATES, search (formatQuestion q location.full_name) = .error e)
        ∧ download_county_ordinance search fetch check classify location num_urls = .error e)
    ∧ ∀ search_results, _find_urls search location.full_name = .ok search_results →
        (∃ d ∈ fetch (_down_select_urls search_results num_urls),
          ∃ e, check d location.name location.state = .error e) →
        ∃ e, (∃ d ∈ fetch (_down_select_urls search_results num_urls),
            check d location.name location.state = .error e)
          ∧ download_county_ordinance search fetch check classify location num_urls
              = .error e := by
  constructor
  · rintro ⟨q, hq, e', he'⟩
    have hmem : (Except.error e' : Except ε (List String)) ∈
        QUESTION_TEMPLATES.map fun q => search (formatQuestion q location.full_name) := by
      rw [← he']
      exact List.mem_map_of_mem _ hq
    obtain ⟨e, hg, hmem2⟩ := gather_error_of_mem ⟨e', hmem⟩
    obtain ⟨q2, hq2, hq2e⟩ := List.mem_map.1 hmem2
    refine ⟨e, ⟨q2, hq2, hq2e⟩, ?_⟩
    have hfind : _find_urls search location.full_name = .error e := hg
    unfold download_county_ordinance
    rw [hfind]
  · intro search_results hsr
    rintro ⟨d, hd, e', he'⟩
    have hmem : (Except.error e' : Except ε Bool) ∈
        (fetch (_down_select_urls search_results num_urls)).map
          fun doc => check doc location.name location.state := by
      rw [← he']
      exact List.mem_map_of_mem _ hd
    obtain ⟨e, hg, hmem2⟩ := gather_error_of_mem ⟨e', hmem⟩
    obtain ⟨d2, hd2, hd2e⟩ := List.mem_map.1 hmem2
    refine ⟨e, ⟨d2, hd2, hd2e⟩, ?_⟩
    have hstage : _down_select_docs_correct_location check
        (fetch (_down_select_urls search_results num_urls)) location.name location.state
        = .error e := by
      unfold _down_select_docs_correct_location
      rw [hg]
    unfold download_county_ordinance
    rw [hsr]
    show (match _down_select_docs_correct_location check
        (fetch (_down_select_urls search_results num_urls)) location.name location.state with
      | Except.error e => (Except.error e : Except ε (Option Doc))
      | Except.ok ds => Except.ok (_parse_all_ord_docs (_check_docs_for_ords classify ds).2))
      = Except.error e
    rw [hstage]

/-- Witness for C5 at a concrete input: a search backend failing every
query makes the pipeline fail with that error. -/
theorem pipeline_fail_fast_witness :
    ∃ e, (∃ q ∈ QUESTION_TEMPLATES,
        (fun (_ : String) => (Except.error 7 : Except Nat (List String)))
          (formatQuestion q (Location.full_name ⟨"L", "C", "S"⟩)) = .error e)
      ∧ download_county_ordinance (ε := Nat) (fun _ => .error 7) (fun _ => [])
          (fun _ _ _ => .ok true) (fun d => d) ⟨"L", "C", "S"⟩ 5 = .error e :=
  (pipeline_fail_fast (fun _ => .error 7) (fun _ => []) (fun _ _ _ => .ok true)
    (fun d => d) ⟨"L", "C", "S"⟩ 5).1
    ⟨"0. \"wind energy conversion system zoning ordinances {location}\"",
      by unfold QUESTION_TEMPLATES; exact List.mem_cons_self _ _, 7, rfl⟩

/-- C7: if any stage yields an empty collection — no selected URLs, no
fetched documents, no jurisdiction matches, or no content matches — the
run returns the "none found" value `.ok none`, and no later-stage external
classifier call is made: with no fetched documents the jurisdiction stage
spawns an empty task list and leaves no survivors, and with no survivors
the content classifier's invocation trace is empty. (The loader contract
`fetch [] = []` reflects that zero URLs fetch zero documents.) -/
theorem pipeline_empty_returns_none {ε : Type} (search : String → Except ε (List String))
    (fetch : List String → List Doc) (check : Doc → String → String → Except ε Bool)
    (classify : Doc → Doc) (location : Location) (num_urls : Nat)
    (search_results : List (List String)) (docs' : List Doc)
    (hfetch : fetch [] = [])
    (h1 : _find_urls search location.full_name = .ok search_results)
    (h2 : _down_select_docs_correct_location check
        (fetch (_down_select_urls search_results num_urls)) location.name location.state
        = .ok docs')
    (hempty : _down_select_urls search_results num_urls = []
      ∨ fetch (_down_select_urls search_results num_urls) = []
      ∨ docs' = []
      ∨ (_check_docs_for_ords classify docs').2 = []) :
    download_county_ordinance search fetch check classify location num_urls = .ok none
    ∧ (fetch (_down_select_urls search_results num_urls) = [] →
        (fetch (_down_select_urls search_results num_urls)).map
          (fun doc => check doc location.name location.state) = [] ∧ docs' = [])
    ∧ (docs' = [] → (_check_docs_for_ords classify docs').1 = []) := by
  have hdocs_empty : fetch (_down_select_urls search_results num_urls) = [] → docs' = [] := by
    intro hf
    rw [hf] at h2
    have h3 : (Except.ok ([] : List Doc) : Except ε (List Doc)) = .ok docs' := h2
    exact (Except.ok.inj h3).symm
  have h2of : docs' = [] → (_check_docs_for_ords classify docs').2 = [] := by
    intro hd
    rw [hd]
    rfl
  have hkey : (_check_docs_for_ords classify docs').2 = [] := by
    rcases hempty with h | h | h | h
    · exact h2of (hdocs_empty (by rw [h]; exact hfetch))
    · exact h2of (hdocs_empty h)
    · exact h2of h
    · exact h
  refine ⟨?_, fun hf => ⟨by rw [hf]; rfl, hdocs_empty hf⟩, fun hd => by rw [hd]; rfl⟩
  unfold download_county_ordinance
  rw [h1]
  show (match _down_select_docs_correct_location check
      (fetch (_down_select_urls search_results num_urls)) location.name location.state with
    | Except.error e => (Except.error e : Except ε (Option Doc))
    | Except.ok ds => Except.ok (_parse_all_ord_docs (_check_docs_for_ords classify ds).2))
    = Except.ok none
  rw [h2]
  show Except.ok (_parse_all_ord_docs (_check_docs_for_ords classify docs').2) = Except.ok none
  rw [hkey]
  rfl

/-- Witness for C7 at a concrete input: a search backend returning no
URLs makes the run return `none` with no classifier calls. -/
theorem pipeline_empty_returns_none_witness :
    download_county_ordinance (ε := Unit) (fun _ => .ok []) (fun _ => [])
      (fun _ _ _ => .ok true) (fun d => d) ⟨"L", "C", "S"⟩ 5 = .ok none :=
  (pipeline_empty_returns_none (ε := Unit) (fun _ => .ok []) (fun _ => [])
    (fun _ _ _ => .ok true) (fun d => d) ⟨"L", "C", "S"⟩ 5 [[], [], [], []] []
    rfl rfl rfl (Or.inl rfl)).1

/-- Witness for C1 at a concrete two-document input. -/
theorem parse_all_ord_docs_best_match_witness :
    ∃ d, _parse_all_ord_docs
        [⟨false, "aaa", some (2019, 5, 6), true⟩, ⟨true, "bb", some (2020, 1, 2), true⟩]
      = some d
      ∧ d ∈ [(⟨false, "aaa", some (2019, 5, 6), true⟩ : Doc),
          ⟨true, "bb", some (2020, 1, 2), true⟩]
      ∧ ∀ d' ∈ [(⟨false, "aaa", some (2019, 5, 6), true⟩ : Doc),
          ⟨true, "bb", some (2020, 1, 2), true⟩], docLe d' d :=
  parse_all_ord_docs_best_match.1
    [⟨false, "aaa", some (2019, 5, 6), true⟩, ⟨true, "bb", some (2020, 1, 2), true⟩]
    (by decide)

/-- Witness for C10 at a concrete input with a full-key tie. -/
theorem parse_all_ord_docs_last_of_ties_witness :
    ∃ (i : Nat) (d : Doc),
      ([⟨false, "aa", some (2020, 1, 1), true⟩, ⟨false, "bb", some (2020, 1, 1), false⟩]
          : List Doc)[i]? = some d
      ∧ _parse_all_ord_docs
          [⟨false, "aa", some (2020, 1, 1), true⟩, ⟨false, "bb", some (2020, 1, 1), false⟩]
        = some d
      ∧ d ∈ [(⟨false, "aa", some (2020, 1, 1), true⟩ : Doc),
          ⟨false, "bb", some (2020, 1, 1), false⟩]
      ∧ ∀ (j : Nat) (d' : Doc),
          ([⟨false, "aa", some (2020, 1, 1), true⟩, ⟨false, "bb", some (2020, 1, 1), false⟩]
              : List Doc)[j]? = some d' →
          _ord_doc_sorting_key d' = _ord_doc_sorting_key d → j ≤ i :=
  parse_all_ord_docs_last_of_ties
    [⟨false, "aa", some (2020, 1, 1), true⟩, ⟨false, "bb", some (2020, 1, 1), false⟩]
    (by decide)
